import Mathlib

/-!
Verification development for the `all_my_code` repository.

The Python source operates on numeric numpy/xarray data.  The shallow
embedding below models:
  * floating-point grid centers and data values as rationals (`ℚ`);
  * possibly-NaN scalars (query coordinates, colocation outputs) as
    `Option ℚ`, with `none` standing for NaN;
  * numpy arrays as Lean lists;
  * raised Python exceptions as `Except`/`Option` error values.

All definitions are written from the source in
`src/all_my_code/munging/collocation.py`, `src/all_my_code/munging/conform.py`
and `src/all_my_code/stats/seas_cycle.py`; library semantics (numpy
`linspace`/`nanmin`/`nanmax`, pandas `cut`/`groupby`, Python `str.split`/
`str.strip`/`str.join`) are embedded according to the documented behaviour of
those libraries.
-/

namespace AllMyCode

/-! ### Bin construction (`colocate_dataarray.make_bins`, numeric branch) -/

/-- `np.nanmean` on a NaN-free rational list (mean = sum / length). -/
def mean (l : List ℚ) : ℚ := l.sum / l.length

/-- `np.diff`: consecutive differences. -/
def diffs : List ℚ → List ℚ
  | [] => []
  | [_] => []
  | a :: b :: rest => (b - a) :: diffs (b :: rest)

/-- `np.linspace a b num`: `num` evenly spaced samples from `a` to `b`
inclusive. -/
def linspace (a b : ℚ) (num : ℕ) : List ℚ :=
  (List.range num).map (fun (i : ℕ) => a + (b - a) * (i : ℚ) / ((num - 1 : ℕ) : ℚ))

/-- `make_bins` from `colocate_dataarray` (numeric branch):
`dx = np.nanmean(np.diff(x)); bins = np.linspace(x[0] - dx/2, x[-1] + dx/2,
x.size + 1)`.  With fewer than two centers `np.diff` is empty, `np.nanmean`
is NaN and the resulting edges are NaN; that NaN outcome is modelled as
`none`. -/
def makeBins (x : List ℚ) : Option (List ℚ) :=
  if x.length < 2 then none
  else
    let dx := mean (diffs x)
    some (linspace (x.headD 0 - dx / 2) (x.getLastD 0 + dx / 2) (x.length + 1))

/-- An evenly spaced axis of `n` centers starting at `c0` with spacing `d`
(the shape quantified over by the evenly-spaced bin/colocation theorems). -/
def arithAxis (n : ℕ) (c0 d : ℚ) : List ℚ :=
  (List.range n).map (fun (i : ℕ) => c0 + d * (i : ℚ))

/-! ### The colocator (`colocate_dataarray`) -/

/-- Structured rendering of the exceptions `colocate_dataarray` can raise. -/
inductive ColocErr where
  /-- `assert len(coord_lengths) == 1` -/
  | lengthMismatch
  /-- `assert len(keys) > 0` -/
  | noCoords
  /-- `assert len(not_matched) == 0`, listing the unmatched names -/
  | namesNotFound (names : List String)
  /-- `raise ValueError(... too large ...)`, reporting name and shape -/
  | rangeTooLarge (name : String) (shape : List ℕ)
  deriving DecidableEq, Repr

/-- `not_matched = [k for k in keys if k not in dims]`. -/
def notMatchedKeys (dims : List String) (keys : List String) : List String :=
  keys.filter (fun k => !(dims.contains k))

/-- `set([coords[k].size for k in keys])` — the distinct lengths among the
query coordinate arrays. -/
def coordLengthSet (coords : List (String × List (Option ℚ))) : List ℕ :=
  (coords.map (fun kv => kv.2.length)).dedup

/-- The assertion sequence of `colocate_dataarray` (lines 147-160), in source
order: equal lengths, at least one coordinate, all names matched.  The dtype
kind check (`coords[k].dtype.kind != da[k].dtype.kind`) always passes in this
numeric-only embedding, where every coordinate is rational. -/
def colocateChecks (dims : List String) (coords : List (String × List (Option ℚ))) :
    Option ColocErr :=
  if (coordLengthSet coords).length ≠ 1 then some .lengthMismatch
  else if coords.length = 0 then some .noCoords
  else if notMatchedKeys dims (coords.map Prod.fst) ≠ [] then
    some (.namesNotFound (notMatchedKeys dims (coords.map Prod.fst)))
  else none

/-- `np.nanmin`: minimum ignoring NaNs; NaN (`none`) if no finite entry. -/
def nanmin (l : List (Option ℚ)) : Option ℚ :=
  match l.filterMap id with
  | [] => none
  | x :: xs => some (xs.foldl min x)

/-- `np.nanmax`: maximum ignoring NaNs; NaN (`none`) if no finite entry. -/
def nanmax (l : List (Option ℚ)) : Option ℚ :=
  match l.filterMap id with
  | [] => none
  | x :: xs => some (xs.foldl max x)

/-- A one-dimensional `xr.DataArray`: a named data variable over a single
named coordinate axis.  Cell values are taken finite (rational); NaN-valued
query coordinates and outputs are modelled, NaN data cells are not. -/
structure Target where
  name : String
  axis : String
  centers : List ℚ
  values : List ℚ
  deriving DecidableEq, Repr

/-- The hard cell ceiling `720 * 1440 * 365 * 2` of `colocate_dataarray`. -/
def sizeCeiling : ℕ := 720 * 1440 * 365 * 2

/-- `xdr = da.sel(**ranges)` for a 1-D target: label-slice the target to the
`[nanmin, nanmax]` bounding range of the query (xarray label slices include
both endpoints).  A NaN bound (all-NaN query) selects nothing, matching
numpy `searchsorted` on NaN bounds.  Centers stay paired with their cell
values. -/
def restrictTarget (da : Target) (qs : List (Option ℚ)) : List (ℚ × ℚ) :=
  match nanmin qs, nanmax qs with
  | some lo, some hi =>
      (da.centers.zip da.values).filter (fun cv => decide (lo ≤ cv.1 ∧ cv.1 ≤ hi))
  | _, _ => []

/-- The interval index of `v` among edges `bins` as computed by
`pd.cut(v, bins)` with the default `right=True`: the first `j` with
`bins[j] < v ≤ bins[j+1]`; `none` when `v` lies in no interval. -/
def cutIdx (bins : List ℚ) (v : ℚ) : Option ℕ :=
  (List.range (bins.length - 1)).find?
    (fun j => decide (bins.getD j 0 < v ∧ v ≤ bins.getD (j + 1) 0))

/-- One query row through `pd.cut`: a NaN row is null; NaN edges (the
fewer-than-two-centers case, where `np.searchsorted` returns position 0 and
pandas masks position 0 as null) make every row null. -/
def pdCut (bins : Option (List ℚ)) (v : Option ℚ) : Option ℕ :=
  match bins, v with
  | some bs, some x => cutIdx bs x
  | _, _ => none

/-- `colocate_dataarray` for a one-dimensional target and a single query
coordinate array `qs` named `qname` (`none` entries are NaN coordinates).
Follows the source order: assertions, bounding-range restriction, size
ceiling, empty-range NaN return, bin construction, `pd.cut`, gather with
null rows replaced by NaN. -/
def colocate1 (da : Target) (qname : String) (qs : List (Option ℚ)) :
    Except ColocErr (List (Option ℚ)) :=
  match colocateChecks [da.axis] [(qname, qs)] with
  | some e => .error e
  | none =>
    let xdr := restrictTarget da qs
    if sizeCeiling < xdr.length then
      .error (.rangeTooLarge da.name [da.values.length])
    else if xdr.length = 0 then
      .ok (qs.map (fun _ => none))
    else
      let bins := makeBins (xdr.map Prod.fst)
      .ok (qs.map (fun q => (pdCut bins q).map (fun j => (xdr.map Prod.snd).getD j 0)))

/-! ### The flat gridder (`grid_flat_data`) -/

/-- A named data column (a `pandas.Series`). -/
structure SeriesQ where
  name : String
  values : List ℚ
  deriving DecidableEq, Repr

/-- A pandas axis label.  The frame built by `grid_flat_data` keeps the
default `RangeIndex`, whose labels are integers; the mapping handed to
`groupby` is keyed by column-name strings. -/
abbrev PyLabel := ℤ ⊕ String

/-- pandas `df.groupby(by=mapping)` semantics for a mapping argument (per
the pandas documentation, the mapping's values determine the groups after
aligning its keys with the frame's row index labels; a row whose label is
absent from the mapping gets a null group key and is dropped).
`grid_flat_data` passes the dict of string-named columns while the frame has
an integer `RangeIndex`, so each row's group key comes from this lookup. -/
def dictGroupKey (mapperKeys : List String) (rowLabel : ℤ) : Option String :=
  mapperKeys.find? (fun k => decide ((Sum.inr k : PyLabel) = Sum.inl rowLabel))

/-- `grid_flat_data(*data_columns, sparse=True, **coordinate_columns)`:
assert equal coordinate lengths, build the frame holding coordinate columns
and (name-keyed) data columns, `df.groupby(by=coordinate_cols).mean()`.
The result is the grouped frame: one row per surviving group key carrying
the per-column means (the `isinstance(out, xr.DataArray/Dataset)` branches
of the source never fire on this frame, which is returned unchanged, and
`sparse` is unused). -/
def gridFlatData (dataCols : List SeriesQ) (coordCols : List (String × List ℚ)) :
    Except String (List (String × List ℚ)) :=
  if (coordCols.map (fun kv => kv.2.length)).dedup.length ≠ 1 then
    .error "All coordinates need to be the same length"
  else
    let nrows := (coordCols.map (fun kv => kv.2.length)).headD 0
    let mapperKeys := coordCols.map Prod.fst ++ dataCols.map SeriesQ.name
    let rowKeys := (List.range nrows).map (fun (i : ℕ) => dictGroupKey mapperKeys (i : ℤ))
    let groups := (rowKeys.filterMap id).dedup
    let allCols : List (List ℚ) := coordCols.map Prod.snd ++ dataCols.map SeriesQ.values
    .ok (groups.map (fun g =>
      (g, allCols.map (fun col =>
        mean (((List.range nrows).filter
          (fun (i : ℕ) => decide (dictGroupKey mapperKeys (i : ℤ) = some g))).map
            (fun i => col.getD i 0))))))

/-! ### Provenance history (`conform.add_docs_line1_to_attribute_history`) -/

/-- Python `str.split(sep)` for a one-character separator, on strings as
character lists (`"".split(";") == [""]`, so the result is never empty). -/
def pySplit (c : Char) : List Char → List (List Char)
  | [] => [[]]
  | x :: xs =>
    match pySplit c xs with
    | [] => [[]]
    | s :: rest => if x = c then [] :: s :: rest else (x :: s) :: rest

/-- Python `str.strip()`: drop whitespace from both ends. -/
def pyStrip (s : List Char) : List Char :=
  ((s.dropWhile Char.isWhitespace).reverse.dropWhile Char.isWhitespace).reverse

/-- Python `sep.join(xs)`. -/
def pyJoin (sep : List Char) : List (List Char) → List Char
  | [] => []
  | [s] => s
  | s :: rest => s ++ sep ++ pyJoin sep rest

/-- The provenance note built by `_add_history`: the timestamp tag
`f"[amc{version}@{now}] "` followed by the first docstring line.  The
source's `version = ".\x7b__version__\x7d"` branch is a plain (non-f)
string literal, so that literal text is what a nonempty package version
contributes. -/
def provNote (version now doc : List Char) : List Char :=
  ("[amc".toList ++ (if version = [] then [] else ".\x7b__version__\x7d".toList)
    ++ "@".toList ++ now ++ "] ".toList) ++ doc

/-- The history update of `_add_history`: read the existing attribute text,
and if nonempty split it on `';'`, strip each note and rejoin with `"; "`
with the new message appended; an empty history becomes exactly the new
message. -/
def addHistory (hist msg : List Char) : List Char :=
  if hist = [] then msg
  else pyJoin "; ".toList ((pySplit ';' hist).map pyStrip ++ [msg])

/-- `ds.attrs.get(key, '')` on an attribute mapping. -/
def getAttr (attrs : List (String × List Char)) (k : String) : List Char :=
  ((attrs.find? (fun kv => kv.1 == k)).map Prod.snd).getD []

/-- `ds.assign_attrs({key: v})`: replace or add the binding for `k`. -/
def assignAttr (attrs : List (String × List Char)) (k : String) (v : List Char) :
    List (String × List Char) :=
  (k, v) :: attrs.filter (fun kv => kv.1 != k)

/-- `_add_history` at the dataset level: store the updated history text on
the `history` attribute of the output. -/
def dsAddHistory (attrs : List (String × List Char)) (msg : List Char) :
    List (String × List Char) :=
  assignAttr attrs "history" (addHistory (getAttr attrs "history") msg)

/-! ### Seasonal-cycle fitters: validation (`stats/seas_cycle.py`) -/

/-- The exceptions the seasonal-cycle fitters' validation raises. -/
inductive SeasErr where
  /-- `ValueError: time array is not evenly spaced` -/
  | unevenTimeSteps
  /-- `assert stride == 12, "this function only works for monthly data"` -/
  | notMonthly
  /-- `assert n_years % 2, "n_years must be an odd number"` -/
  | evenWindow
  deriving DecidableEq, Repr

/-- Insertion into a sorted integer list. -/
def insertSorted (x : ℤ) : List ℤ → List ℤ
  | [] => [x]
  | y :: ys => if x ≤ y then x :: y :: ys else y :: insertSorted x ys

/-- Insertion sort over integers. -/
def sortInts (l : List ℤ) : List ℤ := l.foldr insertSorted []

/-- Collapse adjacent duplicates of a sorted list. -/
def dedupSorted : List ℤ → List ℤ
  | [] => []
  | [x] => [x]
  | x :: y :: rest =>
      if x = y then dedupSorted (y :: rest) else x :: dedupSorted (y :: rest)

/-- `np.unique(years)`: the sorted distinct year values of the time axis. -/
def uniqueYears (years : List ℤ) : List ℤ := dedupSorted (sortInts years)

/-- The counts returned by `np.unique(years, return_counts=True)`. -/
def yearCounts (years : List ℤ) : List ℕ :=
  (uniqueYears years).map (fun y => years.count y)

/-- `_get_number_of_time_steps_in_year(time, raise_if_uneven=True)`: the
per-year sample counts must all equal the first, else
`ValueError("time array is not evenly spaced")`; otherwise return the first
count.  (numpy raises `IndexError` on an empty axis; the claims only cover
nonempty axes.) -/
def timeStepsInYear (years : List ℤ) : Except SeasErr ℕ :=
  if (yearCounts years).all (fun c => c = (yearCounts years).headD 0) then
    .ok ((yearCounts years).headD 0)
  else .error .unevenTimeSteps

/-- The validation prefix of `seascycl_fit_graven` (lines 63-67): compute the
stride, require monthly data (`stride == 12`) and an odd window length, and
return `window = n_years * stride`.  The subsequent numba curve fit performs
no further input validation relevant to these claims. -/
def gravenChecks (years : List ℤ) (nYears : ℕ) : Except SeasErr ℕ :=
  match timeStepsInYear years with
  | .error e => .error e
  | .ok stride =>
    if stride ≠ 12 then .error .notMonthly
    else if nYears % 2 = 0 then .error .evenWindow
    else .ok (nYears * stride)

/-- The validation prefix of `seascycl_fit_climatology` (lines 143-146):
compute the stride and require monthly data; no window-parity check is
performed, and the subsequent rolling-climatology computation does not
depend on the parity of `n_years`. -/
def climatologyChecks (years : List ℤ) (nYears : ℕ) : Except SeasErr ℕ :=
  match timeStepsInYear years with
  | .error e => .error e
  | .ok stride =>
    if stride ≠ 12 then .error .notMonthly
    else .ok (nYears * stride)

end AllMyCode

namespace AllMyCode

/-! ### Generic list lemmas -/

theorem foldl_min_le (xs : List ℚ) (x : ℚ) :
    xs.foldl min x ≤ x ∧ ∀ y ∈ xs, xs.foldl min x ≤ y := by
  induction xs generalizing x with
  | nil => simp
  | cons a l ih =>
    have h := ih (min x a)
    refine ⟨le_trans h.1 (min_le_left _ _), ?_⟩
    intro y hy
    rcases List.mem_cons.mp hy with rfl | hy
    · exact le_trans h.1 (min_le_right _ _)
    · exact h.2 y hy

theorem foldl_min_mem (xs : List ℚ) (x : ℚ) :
    xs.foldl min x = x ∨ xs.foldl min x ∈ xs := by
  induction xs generalizing x with
  | nil => simp
  | cons a l ih =>
    rcases ih (min x a) with h | h
    · rcases min_choice x a with hc | hc
      · left; rw [List.foldl_cons, h, hc]
      · right; rw [List.foldl_cons, h, hc]; exact List.mem_cons_self a l
    · right; exact List.mem_cons_of_mem a h

theorem foldl_max_le (xs : List ℚ) (x : ℚ) :
    x ≤ xs.foldl max x ∧ ∀ y ∈ xs, y ≤ xs.foldl max x := by
  induction xs generalizing x with
  | nil => simp
  | cons a l ih =>
    have h := ih (max x a)
    refine ⟨le_trans (le_max_left _ _) h.1, ?_⟩
    intro y hy
    rcases List.mem_cons.mp hy with rfl | hy
    · exact le_trans (le_max_right _ _) h.1
    · exact h.2 y hy

theorem foldl_max_mem (xs : List ℚ) (x : ℚ) :
    xs.foldl max x = x ∨ xs.foldl max x ∈ xs := by
  induction xs generalizing x with
  | nil => simp
  | cons a l ih =>
    rcases ih (max x a) with h | h
    · rcases max_choice x a with hc | hc
      · left; rw [List.foldl_cons, h, hc]
      · right; rw [List.foldl_cons, h, hc]; exact List.mem_cons_self a l
    · right; exact List.mem_cons_of_mem a h

theorem nanmin_spec (l : List (Option ℚ)) (m : ℚ) (h : nanmin l = some m) :
    m ∈ l.filterMap id ∧ ∀ x ∈ l.filterMap id, m ≤ x := by
  unfold nanmin at h
  cases hl : l.filterMap id with
  | nil => rw [hl] at h; simp at h
  | cons a xs =>
    rw [hl] at h
    have hm : xs.foldl min a = m := by simpa using h
    subst hm
    constructor
    · rcases foldl_min_mem xs a with h2 | h2
      · rw [h2]; exact List.mem_cons_self _ _
      · exact List.mem_cons_of_mem _ h2
    · intro x hx
      rcases List.mem_cons.mp hx with rfl | hx
      · exact (foldl_min_le xs x).1
      · exact (foldl_min_le xs a).2 x hx

theorem nanmax_spec (l : List (Option ℚ)) (m : ℚ) (h : nanmax l = some m) :
    m ∈ l.filterMap id ∧ ∀ x ∈ l.filterMap id, x ≤ m := by
  unfold nanmax at h
  cases hl : l.filterMap id with
  | nil => rw [hl] at h; simp at h
  | cons a xs =>
    rw [hl] at h
    have hm : xs.foldl max a = m := by simpa using h
    subst hm
    constructor
    · rcases foldl_max_mem xs a with h2 | h2
      · rw [h2]; exact List.mem_cons_self _ _
      · exact List.mem_cons_of_mem _ h2
    · intro x hx
      rcases List.mem_cons.mp hx with rfl | hx
      · exact (foldl_max_le xs x).1
      · exact (foldl_max_le xs a).2 x hx

theorem nanmin_isSome (l : List (Option ℚ)) (h : l.filterMap id ≠ []) :
    ∃ m, nanmin l = some m := by
  unfold nanmin
  cases hl : l.filterMap id with
  | nil => exact absurd hl h
  | cons a xs => exact ⟨xs.foldl min a, rfl⟩

theorem nanmax_isSome (l : List (Option ℚ)) (h : l.filterMap id ≠ []) :
    ∃ m, nanmax l = some m := by
  unfold nanmax
  cases hl : l.filterMap id with
  | nil => exact absurd hl h
  | cons a xs => exact ⟨xs.foldl max a, rfl⟩

theorem find?_range'_interval (p : ℕ → Bool) :
    ∀ (m s t : ℕ), s ≤ t → t < s + m → (∀ j, s ≤ j → j < t → p j = false) →
      p t = true → (List.range' s m).find? p = some t := by
  intro m
  induction m with
  | zero => intro s t hst hts _ _; omega
  | succ m ih =>
    intro s t hst hts hf hp
    rw [List.range'_succ]
    rcases Nat.eq_or_lt_of_le hst with heq | hlt
    · subst heq
      rw [List.find?_cons_of_pos _ hp]
    · rw [List.find?_cons_of_neg]
      · exact ih (s + 1) t hlt (by omega) (fun j h1 h2 => hf j (by omega) h2) hp
      · simp [hf s (le_refl s) hlt]

theorem find?_range_interval (p : ℕ → Bool) (m t : ℕ) (ht : t < m)
    (hlow : ∀ j, j < t → p j = false) (hp : p t = true) :
    (List.range m).find? p = some t := by
  rw [List.range_eq_range']
  exact find?_range'_interval p m 0 t (Nat.zero_le t) (by omega)
    (fun j _ h2 => hlow j h2) hp

theorem filter_range'_above (a b : ℕ) :
    ∀ (m s : ℕ), b < s →
      (List.range' s m).filter (fun i => decide (a ≤ i ∧ i ≤ b)) = [] := by
  intro m
  induction m with
  | zero => intro s _; rfl
  | succ m ih =>
    intro s hs
    rw [List.range'_succ, List.filter_cons_of_neg (by simp; omega)]
    exact ih (s + 1) (by omega)

theorem filter_range'_upper (a b : ℕ) :
    ∀ (m s : ℕ), a ≤ s → s ≤ b + 1 → b < s + m →
      (List.range' s m).filter (fun i => decide (a ≤ i ∧ i ≤ b)) =
        List.range' s (b + 1 - s) := by
  intro m
  induction m with
  | zero =>
    intro s h1 h2 h3
    have hsb : s = b + 1 := by omega
    subst hsb
    simp
  | succ m ih =>
    intro s h1 h2 h3
    rw [List.range'_succ]
    rcases Nat.lt_or_ge b s with hs | hs
    · have hsb : s = b + 1 := by omega
      rw [List.filter_cons_of_neg (by simp; omega),
        filter_range'_above a b m (s + 1) (by omega)]
      rw [hsb]
      simp
    · rw [List.filter_cons_of_pos (by simp; omega),
        ih (s + 1) (by omega) (by omega) (by omega)]
      have harg : b + 1 - (s + 1) = b - s := by omega
      have hsplit : b + 1 - s = (b - s) + 1 := by omega
      rw [harg, hsplit, List.range'_succ]

theorem filter_range'_interval (a b : ℕ) :
    ∀ (m s : ℕ), s ≤ a → a ≤ b → b < s + m →
      (List.range' s m).filter (fun i => decide (a ≤ i ∧ i ≤ b)) =
        List.range' a (b + 1 - a) := by
  intro m
  induction m with
  | zero => intro s h1 h2 h3; omega
  | succ m ih =>
    intro s h1 h2 h3
    rcases Nat.eq_or_lt_of_le h1 with heq | hlt
    · subst heq
      exact filter_range'_upper s b (m + 1) s (le_refl s) (by omega) h3
    · rw [List.range'_succ, List.filter_cons_of_neg (by simp; omega)]
      exact ih (s + 1) hlt h2 (by omega)

theorem filter_range_interval (a b n : ℕ) (hab : a ≤ b) (hbn : b < n) :
    (List.range n).filter (fun i => decide (a ≤ i ∧ i ≤ b)) =
      List.range' a (b + 1 - a) := by
  rw [List.range_eq_range']
  exact filter_range'_interval a b n 0 (Nat.zero_le a) hab (by omega)

theorem zip_map_range :
    ∀ (n : ℕ) (g : ℕ → ℚ) (l : List ℚ), l.length = n →
      ((List.range n).map g).zip l =
        (List.range n).map (fun i => (g i, l.getD i 0)) := by
  intro n
  induction n with
  | zero => intro g l hl; simp
  | succ n ih =>
    intro g l hl
    cases l with
    | nil => simp at hl
    | cons v vs =>
      have hvs : vs.length = n := by simpa using hl
      simp only [List.range_succ_eq_map, List.map_cons, List.zip_cons_cons,
        List.map_map]
      have htail := ih (fun i => g (i + 1)) vs hvs
      have h0 : (v :: vs).getD 0 0 = v := rfl
      rw [h0]
      congr 1

theorem getD_map_range' {α : Type} (g : ℕ → α) (d : α) (a m i : ℕ) (h : i < m) :
    ((List.range' a m).map g).getD i d = g (a + i) := by
  have hlen : i < ((List.range' a m).map g).length := by simpa using h
  rw [List.getD_eq_getElem?_getD, List.getElem?_eq_getElem hlen]
  simp

theorem getD_map_list {α β : Type} (g : α → β) (d : β) (d' : α) (l : List α) (i : ℕ)
    (h : i < l.length) :
    (l.map g).getD i d = g (l.getD i d') := by
  have hlen : i < (l.map g).length := by simpa using h
  rw [List.getD_eq_getElem?_getD, List.getElem?_eq_getElem hlen,
    List.getD_eq_getElem?_getD, List.getElem?_eq_getElem h]
  simp

end AllMyCode

namespace AllMyCode

/-! ### Evenly spaced axes and their bins -/

theorem arithAxis_length (n : ℕ) (c0 d : ℚ) : (arithAxis n c0 d).length = n := by
  simp [arithAxis]

theorem arithAxis_succ (n : ℕ) (c0 d : ℚ) :
    arithAxis (n + 1) c0 d = c0 :: arithAxis n (c0 + d) d := by
  unfold arithAxis
  rw [List.range_succ_eq_map, List.map_cons, List.map_map]
  congr 1
  · norm_num
  · apply List.map_congr_left
    intro i _
    simp [Function.comp]
    ring

theorem arithAxis_getD (n : ℕ) (c0 d : ℚ) (i : ℕ) (h : i < n) :
    (arithAxis n c0 d).getD i 0 = c0 + d * i := by
  have hlen : i < (arithAxis n c0 d).length := by
    simpa [arithAxis_length] using h
  rw [List.getD_eq_getElem?_getD, List.getElem?_eq_getElem hlen]
  simp [arithAxis]

theorem arithAxis_headD (n : ℕ) (c0 d : ℚ) (h : 1 ≤ n) :
    (arithAxis n c0 d).headD 0 = c0 := by
  cases n with
  | zero => omega
  | succ n => rw [arithAxis_succ]; rfl

theorem arithAxis_getLastD (d : ℚ) :
    ∀ (n : ℕ) (c0 x : ℚ), 1 ≤ n →
      (arithAxis n c0 d).getLastD x = c0 + d * ((n - 1 : ℕ) : ℚ) := by
  intro n
  induction n with
  | zero => intro c0 x h; omega
  | succ n ih =>
    intro c0 x h
    rw [arithAxis_succ]
    cases Nat.eq_zero_or_pos n with
    | inl h0 =>
      subst h0
      simp [arithAxis]
    | inr hpos =>
      rw [List.getLastD_cons, ih (c0 + d) c0 hpos]
      have h1 : ((n - 1 : ℕ) : ℚ) = (n : ℚ) - 1 := by
        rw [Nat.cast_sub hpos]
        norm_num
      have h2 : ((n + 1 - 1 : ℕ) : ℚ) = (n : ℚ) := by norm_num
      rw [h1, h2]
      ring

theorem diffs_arithAxis (d : ℚ) :
    ∀ (n : ℕ) (c0 : ℚ), 1 ≤ n →
      diffs (arithAxis n c0 d) = List.replicate (n - 1) d := by
  intro n
  induction n with
  | zero => intro c0 h; omega
  | succ n ih =>
    intro c0 h
    cases Nat.eq_zero_or_pos n with
    | inl h0 =>
      subst h0
      rw [arithAxis_succ]
      simp [arithAxis, diffs]
    | inr hpos =>
      rw [arithAxis_succ]
      obtain ⟨m, rfl⟩ : ∃ m, n = m + 1 := ⟨n - 1, by omega⟩
      rw [arithAxis_succ]
      rw [show diffs (c0 :: (c0 + d) :: arithAxis m (c0 + d + d) d)
            = ((c0 + d) - c0) :: diffs ((c0 + d) :: arithAxis m (c0 + d + d) d) from rfl]
      rw [← arithAxis_succ, ih (c0 + d) hpos]
      have hd : (c0 + d) - c0 = d := by ring
      have hr : (m + 1 + 1 - 1 : ℕ) = m + 1 := by omega
      have hr2 : (m + 1 - 1 : ℕ) = m := by omega
      rw [hd, hr, hr2, List.replicate_succ]

theorem mean_replicate (k : ℕ) (d : ℚ) (h : 1 ≤ k) :
    mean (List.replicate k d) = d := by
  unfold mean
  rw [List.sum_replicate, List.length_replicate, nsmul_eq_mul]
  have hk : (k : ℚ) ≠ 0 := Nat.cast_ne_zero.mpr (by omega)
  field_simp

theorem linspace_length (a b : ℚ) (num : ℕ) : (linspace a b num).length = num := by
  simp [linspace]

theorem linspace_getD (a b : ℚ) (num i : ℕ) (h : i < num) :
    (linspace a b num).getD i 0 = a + (b - a) * i / ((num - 1 : ℕ) : ℚ) := by
  have hlen : i < (linspace a b num).length := by
    rw [linspace_length]
    exact h
  rw [List.getD_eq_getElem?_getD, List.getElem?_eq_getElem hlen]
  simp [linspace]

theorem makeBins_arithAxis (n : ℕ) (c0 d : ℚ) (h : 2 ≤ n) :
    makeBins (arithAxis n c0 d) =
      some (linspace (c0 - d / 2) ((c0 + d * ((n - 1 : ℕ) : ℚ)) + d / 2) (n + 1)) := by
  unfold makeBins
  rw [arithAxis_length, if_neg (by omega)]
  rw [diffs_arithAxis d n c0 (by omega), mean_replicate (n - 1) d (by omega),
    arithAxis_headD n c0 d (by omega), arithAxis_getLastD d n c0 0 (by omega)]

theorem evenBins_getD (n i : ℕ) (c0 d : ℚ) (h2 : 2 ≤ n) (hi : i < n + 1) :
    (linspace (c0 - d / 2) ((c0 + d * ((n - 1 : ℕ) : ℚ)) + d / 2) (n + 1)).getD i 0
      = c0 - d / 2 + d * i := by
  rw [linspace_getD _ _ _ _ hi]
  have hn : ((n + 1 - 1 : ℕ) : ℚ) = (n : ℚ) := by norm_num
  have h1 : ((n - 1 : ℕ) : ℚ) = (n : ℚ) - 1 := by
    rw [Nat.cast_sub (by omega)]
    norm_num
  rw [hn, h1]
  have hnz : (n : ℚ) ≠ 0 := Nat.cast_ne_zero.mpr (by omega)
  field_simp
  ring

end AllMyCode

namespace AllMyCode

/-! ### Claim C1 -/

/-- **C1** (amended): for every sequence of at least two centers the bin
constructor `make_bins` produces exactly `N + 1` edges; when the centers are
evenly spaced with positive spacing, every center additionally lies strictly
inside its corresponding half-open interval `(edge[i], edge[i+1]]`.  With
uneven spacing the mean-spacing edges can miss their centers (see the
counterexample), and with a single center the edges are NaN. -/
theorem makeBins_edge_count_and_even_containment :
    (∀ x : List ℚ, 2 ≤ x.length →
      ∃ bins, makeBins x = some bins ∧ bins.length = x.length + 1) ∧
    (∀ (n : ℕ) (c0 d : ℚ), 2 ≤ n → 0 < d →
      ∃ bins, makeBins (arithAxis n c0 d) = some bins ∧
        bins.length = n + 1 ∧
        ∀ i, i < n →
          bins.getD i 0 < (arithAxis n c0 d).getD i 0 ∧
          (arithAxis n c0 d).getD i 0 ≤ bins.getD (i + 1) 0) := by
  constructor
  · intro x hx
    refine ⟨linspace (x.headD 0 - mean (diffs x) / 2)
      (x.getLastD 0 + mean (diffs x) / 2) (x.length + 1), ?_, linspace_length _ _ _⟩
    unfold makeBins
    rw [if_neg (by omega)]
  · intro n c0 d hn hd
    refine ⟨_, makeBins_arithAxis n c0 d hn, linspace_length _ _ _, ?_⟩
    intro i hi
    rw [arithAxis_getD n c0 d i hi, evenBins_getD n i c0 d hn (by omega),
      evenBins_getD n (i + 1) c0 d hn (by omega)]
    constructor
    · linarith
    · push_cast
      linarith

/-- **C1 counterexample**: for the strictly increasing centers `[0, 1, 10]`
the mean-spacing edges are `[-5/2, 5/2, 15/2, 25/2]`, and the middle center
`1` does not lie inside its interval `(edge[1], edge[2]] = (5/2, 15/2]`:
the claimed containment fails for unevenly spaced centers. -/
theorem makeBins_uneven_containment_fails :
    ∃ bins, makeBins [(0 : ℚ), 1, 10] = some bins ∧
      bins.length = [(0 : ℚ), 1, 10].length + 1 ∧
      ¬ (bins.getD 1 0 < [(0 : ℚ), 1, 10].getD 1 0 ∧
        [(0 : ℚ), 1, 10].getD 1 0 ≤ bins.getD 2 0) := by
  refine ⟨[-5/2, 5/2, 15/2, 25/2], ?_, by simp, ?_⟩
  · simp [makeBins, mean, diffs, linspace, List.range_succ]
    norm_num
  · norm_num

/-- Witness for C1: both parts instantiated at concrete inputs. -/
theorem makeBins_edge_count_and_even_containment_w :
    (∃ bins, makeBins [(0 : ℚ), 1, 10] = some bins ∧
      bins.length = [(0 : ℚ), 1, 10].length + 1) ∧
    (∃ bins, makeBins (arithAxis 3 (-1) 1) = some bins ∧ bins.length = 3 + 1 ∧
      ∀ i, i < 3 → bins.getD i 0 < (arithAxis 3 (-1) 1).getD i 0 ∧
        (arithAxis 3 (-1) 1).getD i 0 ≤ bins.getD (i + 1) 0) :=
  ⟨makeBins_edge_count_and_even_containment.1 [(0 : ℚ), 1, 10] (by simp),
   makeBins_edge_count_and_even_containment.2 3 (-1) 1 (by norm_num) (by norm_num)⟩

end AllMyCode

namespace AllMyCode

/-! ### Claims C4 and C5 -/

/-- **C4** (confirmed): whenever at least one query coordinate name is not a
dimension of the target (any mix of valid and invalid names, equal-length
arrays), the validation stage of `colocate_dataarray` fails with the
"Coords are not in da" error, and the listed names are exactly the unmatched
ones.  The validation runs before the target is restricted or loaded; on a
one-dimensional target `colocate_dataarray` itself returns exactly that
error for any mismatched query name. -/
theorem colocate_unmatched_names_fail
    (dims : List String) (coords : List (String × List (Option ℚ)))
    (hne : coords ≠ []) (hlen : (coordLengthSet coords).length = 1)
    (k0 : String) (hk0 : k0 ∈ coords.map Prod.fst) (hk0n : k0 ∉ dims) :
    (∃ bad, colocateChecks dims coords = some (.namesNotFound bad) ∧ bad ≠ [] ∧
      (∀ k, k ∈ bad ↔ (k ∈ coords.map Prod.fst ∧ k ∉ dims))) ∧
    (∀ (da : Target) (qs : List (Option ℚ)) (qn : String), qn ≠ da.axis →
      colocate1 da qn qs = .error (.namesNotFound [qn])) := by
  have hbad : k0 ∈ notMatchedKeys dims (coords.map Prod.fst) := by
    unfold notMatchedKeys
    rw [List.mem_filter]
    refine ⟨hk0, ?_⟩
    simpa using hk0n
  have hnonempty : notMatchedKeys dims (coords.map Prod.fst) ≠ [] := by
    intro hcontra
    rw [hcontra] at hbad
    exact absurd hbad (List.not_mem_nil k0)
  constructor
  · refine ⟨notMatchedKeys dims (coords.map Prod.fst), ?_, hnonempty, ?_⟩
    · unfold colocateChecks
      rw [if_neg (by simp [hlen]), if_neg (by simp [hne]), if_pos hnonempty]
    · intro k
      unfold notMatchedKeys
      rw [List.mem_filter]
      simp
  · intro da qs qn hqn
    unfold colocate1
    have hch : colocateChecks [da.axis] [(qn, qs)]
        = some (.namesNotFound [qn]) := by
      unfold colocateChecks coordLengthSet notMatchedKeys
      simp [hqn]
    rw [hch]

/-- **C5** (confirmed): whenever the bounding-range restriction of the
target exceeds the fixed cell ceiling `720*1440*365*2`,
`colocate_dataarray` raises the "range too large" `ValueError` reporting the
target's name and (full) shape; the check precedes bin construction and
value gathering, i.e. it fires before the restriction would be loaded. -/
theorem colocate_range_too_large
    (da : Target) (qname : String) (qs : List (Option ℚ))
    (hax : qname = da.axis)
    (h : sizeCeiling < (restrictTarget da qs).length) :
    colocate1 da qname qs = .error (.rangeTooLarge da.name [da.values.length]) := by
  unfold colocate1
  have hch : colocateChecks [da.axis] [(qname, qs)] = none := by
    unfold colocateChecks coordLengthSet notMatchedKeys
    simp [hax]
  rw [hch]
  simp [h]

/-- A target one cell larger than the hard ceiling (used to witness C5). -/
def bigN : ℕ := sizeCeiling + 1

/-- A one-dimensional target whose axis holds `bigN` unit-spaced centers. -/
def bigTarget : Target :=
  ⟨"big", "lat", (List.range bigN).map (fun (i : ℕ) => (i : ℚ)),
    List.replicate bigN 0⟩

theorem bigTarget_restrict_length :
    sizeCeiling <
      (restrictTarget bigTarget [some (0 : ℚ), some ((sizeCeiling : ℕ) : ℚ)]).length := by
  have hmin : nanmin [some (0 : ℚ), some ((sizeCeiling : ℕ) : ℚ)]
      = some (min 0 ((sizeCeiling : ℕ) : ℚ)) := rfl
  have hmax : nanmax [some (0 : ℚ), some ((sizeCeiling : ℕ) : ℚ)]
      = some (max 0 ((sizeCeiling : ℕ) : ℚ)) := rfl
  have hmin' : nanmin [some (0 : ℚ), some ((sizeCeiling : ℕ) : ℚ)] = some 0 := by
    rw [hmin, min_eq_left (Nat.cast_nonneg _)]
  have hmax' : nanmax [some (0 : ℚ), some ((sizeCeiling : ℕ) : ℚ)]
      = some ((sizeCeiling : ℕ) : ℚ) := by
    rw [hmax, max_eq_right (Nat.cast_nonneg _)]
  unfold restrictTarget
  rw [hmin', hmax']
  simp only [bigTarget]
  rw [zip_map_range bigN (fun (i : ℕ) => (i : ℚ)) (List.replicate bigN 0)
    (List.length_replicate _ _)]
  rw [List.filter_eq_self.mpr]
  · rw [List.length_map, List.length_range]
    exact Nat.lt_succ_self _
  · intro cv hcv
    rw [List.mem_map] at hcv
    obtain ⟨i, hi, rfl⟩ := hcv
    rw [List.mem_range] at hi
    simp only [decide_eq_true_eq]
    constructor
    · exact Nat.cast_nonneg i
    · exact_mod_cast Nat.le_of_lt_succ (by simpa [bigN] using hi)

/-- Witness for C5: the ceiling error on a target of `sizeCeiling + 1` cells
fully covered by the query range. -/
theorem colocate_range_too_large_w :
    colocate1 bigTarget "lat" [some (0 : ℚ), some ((sizeCeiling : ℕ) : ℚ)]
      = .error (.rangeTooLarge "big" [bigN]) := by
  have h := colocate_range_too_large bigTarget "lat"
    [some (0 : ℚ), some ((sizeCeiling : ℕ) : ℚ)] rfl bigTarget_restrict_length
  simpa [bigTarget] using h

/-- Witness for C4: a query naming `lat` (valid) and `foo` (invalid) against
a `lat`-only dimension list fails listing exactly `foo`. -/
theorem colocate_unmatched_names_fail_w :
    (∃ bad, colocateChecks ["lat"] [("lat", [some (0 : ℚ)]), ("foo", [some (1 : ℚ)])]
        = some (.namesNotFound bad) ∧ bad ≠ [] ∧
      (∀ k, k ∈ bad ↔
        (k ∈ ([("lat", [some (0 : ℚ)]), ("foo", [some (1 : ℚ)])].map Prod.fst) ∧
          k ∉ ["lat"]))) ∧
    (∀ (da : Target) (qs : List (Option ℚ)) (qn : String), qn ≠ da.axis →
      colocate1 da qn qs = .error (.namesNotFound [qn])) :=
  colocate_unmatched_names_fail ["lat"]
    [("lat", [some (0 : ℚ)]), ("foo", [some (1 : ℚ)])]
    (by simp) (by simp [coordLengthSet]) "foo" (by simp) (by simp)

end AllMyCode

namespace AllMyCode

/-! ### Claims C3 and C9 -/

theorem pdCut_noBins (v : Option ℚ) : pdCut none v = none := by
  cases v <;> rfl

theorem pdCut_nanRow (b : Option (List ℚ)) : pdCut b none = none := by
  cases b <;> rfl

theorem colocateChecks_single (dims : List String) (qn : String)
    (qs : List (Option ℚ)) :
    colocateChecks dims [(qn, qs)] =
      (if notMatchedKeys dims [qn] ≠ [] then
        some (.namesNotFound (notMatchedKeys dims [qn])) else none) := by
  unfold colocateChecks
  rw [if_neg (by simp [coordLengthSet]), if_neg (by simp)]
  rfl

theorem colocate1_eq_of_checks (da : Target) (qname : String)
    (qs : List (Option ℚ))
    (hch : colocateChecks [da.axis] [(qname, qs)] = none) :
    colocate1 da qname qs =
      (if sizeCeiling < (restrictTarget da qs).length then
        .error (.rangeTooLarge da.name [da.values.length])
      else if (restrictTarget da qs).length = 0 then
        .ok (qs.map (fun _ => none))
      else
        .ok (qs.map (fun q =>
          (pdCut (makeBins ((restrictTarget da qs).map Prod.fst)) q).map
            (fun j => ((restrictTarget da qs).map Prod.snd).getD j 0)))) := by
  unfold colocate1
  rw [hch]

/-- **C3** (confirmed): with a valid (name-matched) query whose restriction
stays under the cell ceiling, `colocate_dataarray` never raises: it returns
a list of the query's length; an empty restriction yields all NaNs; and an
output position is NaN exactly when `pd.cut` places that query row in no bin
(NaN rows, rows outside every constructed bin edge, and the NaN-edges case
of a single restricted center), while every row that lands in a bin receives
the target's cell value at that bin. -/
theorem colocate_out_of_range_nan
    (da : Target) (qname : String) (qs : List (Option ℚ))
    (hax : qname = da.axis)
    (hceil : (restrictTarget da qs).length ≤ sizeCeiling) :
    ∃ out, colocate1 da qname qs = .ok out ∧ out.length = qs.length ∧
      (restrictTarget da qs = [] → out = qs.map fun _ => none) ∧
      (∀ i, i < qs.length →
        (out.getD i none = none ↔
          pdCut (makeBins ((restrictTarget da qs).map Prod.fst)) (qs.getD i none)
            = none)) ∧
      (∀ i j, i < qs.length →
        pdCut (makeBins ((restrictTarget da qs).map Prod.fst)) (qs.getD i none)
          = some j →
        out.getD i none = some (((restrictTarget da qs).map Prod.snd).getD j 0)) := by
  have hch : colocateChecks [da.axis] [(qname, qs)] = none := by
    rw [colocateChecks_single]
    simp [notMatchedKeys, hax]
  rw [colocate1_eq_of_checks da qname qs hch]
  rw [if_neg (by omega)]
  by_cases hempty : (restrictTarget da qs).length = 0
  · rw [if_pos hempty]
    have hres : restrictTarget da qs = [] := List.length_eq_zero.mp hempty
    have hmk : makeBins ((restrictTarget da qs).map Prod.fst) = none := by
      rw [hres]
      rfl
    refine ⟨qs.map (fun _ => none), rfl, by simp, fun _ => rfl, ?_, ?_⟩
    · intro i hi
      rw [getD_map_list (fun _ => (none : Option ℚ)) none none qs i hi, hmk,
        pdCut_noBins]
      simp
    · intro i j hi hj
      rw [hmk, pdCut_noBins] at hj
      exact absurd hj (by simp)
  · rw [if_neg hempty]
    refine ⟨_, rfl, by simp, ?_, ?_, ?_⟩
    · intro hres
      rw [hres] at hempty
      simp at hempty
    · intro i hi
      rw [getD_map_list _ none none qs i hi]
      exact Option.map_eq_none'
    · intro i j hi hj
      rw [getD_map_list _ none none qs i hi, hj]
      rfl

/-- Witness for C3: querying `lat = 5`, outside the covered range of a
target with centers `[-1, 0, 1]`, returns NaN rather than raising. -/
theorem colocate_out_of_range_nan_w :
    ∃ out, colocate1 ⟨"t", "lat", [-1, 0, 1], [10, 20, 30]⟩ "lat" [some (5 : ℚ)]
        = .ok out ∧
      out.length = [some (5 : ℚ)].length ∧
      (restrictTarget ⟨"t", "lat", [-1, 0, 1], [10, 20, 30]⟩ [some (5 : ℚ)] = [] →
        out = [some (5 : ℚ)].map fun _ => none) ∧
      (∀ i, i < [some (5 : ℚ)].length →
        (out.getD i none = none ↔
          pdCut (makeBins ((restrictTarget ⟨"t", "lat", [-1, 0, 1], [10, 20, 30]⟩
              [some (5 : ℚ)]).map Prod.fst)) ([some (5 : ℚ)].getD i none) = none)) ∧
      (∀ i j, i < [some (5 : ℚ)].length →
        pdCut (makeBins ((restrictTarget ⟨"t", "lat", [-1, 0, 1], [10, 20, 30]⟩
            [some (5 : ℚ)]).map Prod.fst)) ([some (5 : ℚ)].getD i none) = some j →
        out.getD i none = some (((restrictTarget ⟨"t", "lat", [-1, 0, 1], [10, 20, 30]⟩
          [some (5 : ℚ)]).map Prod.snd).getD j 0)) := by
  apply colocate_out_of_range_nan ⟨"t", "lat", [-1, 0, 1], [10, 20, 30]⟩ "lat"
    [some (5 : ℚ)] rfl
  have hres : restrictTarget ⟨"t", "lat", [-1, 0, 1], [10, 20, 30]⟩
      [some (5 : ℚ)] = [] := by
    unfold restrictTarget nanmin nanmax
    simp
    norm_num
  rw [hres]
  simp [sizeCeiling]

theorem filterMap_id_insertIdx_none :
    ∀ (p : ℕ) (qs : List (Option ℚ)),
      (qs.insertIdx p none).filterMap id = qs.filterMap id := by
  intro p
  induction p with
  | zero =>
    intro qs
    rw [List.insertIdx_zero]
    simp
  | succ p ih =>
    intro qs
    cases qs with
    | nil => rw [List.insertIdx_succ_nil]
    | cons x xs =>
      rw [List.insertIdx_succ_cons]
      simp [List.filterMap_cons, ih xs]

theorem map_insertIdx {α β : Type} (g : α → β) :
    ∀ (p : ℕ) (x : α) (l : List α),
      (l.insertIdx p x).map g = (l.map g).insertIdx p (g x) := by
  intro p
  induction p with
  | zero =>
    intro x l
    rw [List.insertIdx_zero, List.insertIdx_zero]
    rfl
  | succ p ih =>
    intro x l
    cases l with
    | nil => rw [List.insertIdx_succ_nil]; rfl
    | cons a as =>
      rw [List.insertIdx_succ_cons, List.map_cons, List.map_cons,
        List.insertIdx_succ_cons, ih x as]

/-- **C9** (confirmed): NaN coordinate rows at any position of a valid query
neither raise nor affect the other rows.  Inserting a NaN row at any
position of a query that colocates successfully returns the same outputs
with exactly one NaN inserted at that position; and in every successful
call, the output at each NaN query row is NaN.  (The bounding range is
computed by `nanmin`/`nanmax`, which ignore NaN rows, so the restriction
and bins are unchanged.) -/
theorem colocate_nan_rows (da : Target) (qname : String) :
    (∀ (qs out : List (Option ℚ)) (p : ℕ),
      colocate1 da qname qs = .ok out →
      colocate1 da qname (qs.insertIdx p none) = .ok (out.insertIdx p none)) ∧
    (∀ qs out, colocate1 da qname qs = .ok out →
      out.length = qs.length ∧
      ∀ i, i < qs.length → qs.getD i none = none → out.getD i none = none) := by
  constructor
  · intro qs out p h
    cases hch : colocateChecks [da.axis] [(qname, qs)] with
    | some e =>
      unfold colocate1 at h
      rw [hch] at h
      simp at h
    | none =>
      have hne : notMatchedKeys [da.axis] [qname] = [] := by
        rw [colocateChecks_single] at hch
        by_cases hcontra : notMatchedKeys [da.axis] [qname] = []
        · exact hcontra
        · rw [if_pos hcontra] at hch
          simp at hch
      have hch2 : colocateChecks [da.axis] [(qname, qs.insertIdx p none)]
          = none := by
        rw [colocateChecks_single, if_neg (by simp [hne])]
      have hmin : nanmin (qs.insertIdx p none) = nanmin qs := by
        unfold nanmin
        rw [filterMap_id_insertIdx_none]
      have hmax : nanmax (qs.insertIdx p none) = nanmax qs := by
        unfold nanmax
        rw [filterMap_id_insertIdx_none]
      have hres : restrictTarget da (qs.insertIdx p none)
          = restrictTarget da qs := by
        unfold restrictTarget
        rw [hmin, hmax]
      rw [colocate1_eq_of_checks da qname qs hch] at h
      rw [colocate1_eq_of_checks da qname (qs.insertIdx p none) hch2, hres]
      by_cases h1 : sizeCeiling < (restrictTarget da qs).length
      · rw [if_pos h1] at h
        simp at h
      · rw [if_neg h1] at h ⊢
        by_cases h2 : (restrictTarget da qs).length = 0
        · rw [if_pos h2] at h ⊢
          have hout : qs.map (fun _ => (none : Option ℚ)) = out := by
            simpa using h
          simp only [map_insertIdx, hout]
        · rw [if_neg h2] at h ⊢
          have hout : qs.map (fun q =>
              (pdCut (makeBins ((restrictTarget da qs).map Prod.fst)) q).map
                (fun j => ((restrictTarget da qs).map Prod.snd).getD j 0))
              = out := by
            simpa using h
          simp only [map_insertIdx, hout, pdCut_nanRow, Option.map_none']
  · intro qs out h
    cases hch : colocateChecks [da.axis] [(qname, qs)] with
    | some e =>
      unfold colocate1 at h
      rw [hch] at h
      simp at h
    | none =>
      rw [colocate1_eq_of_checks da qname qs hch] at h
      by_cases h1 : sizeCeiling < (restrictTarget da qs).length
      · rw [if_pos h1] at h
        simp at h
      · rw [if_neg h1] at h
        by_cases h2 : (restrictTarget da qs).length = 0
        · rw [if_pos h2] at h
          have hout : qs.map (fun _ => (none : Option ℚ)) = out := by
            simpa using h
          rw [← hout]
          refine ⟨by simp, ?_⟩
          intro i hi _
          rw [getD_map_list (fun _ => (none : Option ℚ)) none none qs i hi]
        · rw [if_neg h2] at h
          have hout : qs.map (fun q =>
              (pdCut (makeBins ((restrictTarget da qs).map Prod.fst)) q).map
                (fun j => ((restrictTarget da qs).map Prod.snd).getD j 0))
              = out := by
            simpa using h
          rw [← hout]
          refine ⟨by simp, ?_⟩
          intro i hi hnan
          rw [getD_map_list _ none none qs i hi, hnan, pdCut_nanRow]
          rfl

end AllMyCode

namespace AllMyCode

/-- Witness for C9: inserting a NaN row in the middle of the round-trip
query leaves the other outputs unchanged and puts one NaN at that
position. -/
theorem colocate_nan_rows_w :
    colocate1 ⟨"t", "lat", [-1, 0, 1], [10, 20, 30]⟩ "lat"
        [some (-1 : ℚ), none, some 1]
      = .ok [some (10 : ℚ), none, some 30] :=
  (colocate_nan_rows ⟨"t", "lat", [-1, 0, 1], [10, 20, 30]⟩ "lat").1
    [some (-1 : ℚ), some 1] [some (10 : ℚ), some 30] 1
    (by
      simp [colocate1, colocateChecks, coordLengthSet, notMatchedKeys,
        restrictTarget, nanmin, nanmax, makeBins, mean, diffs, linspace,
        cutIdx, pdCut, sizeCeiling, List.range_succ]
      norm_num)

end AllMyCode

namespace AllMyCode

/-! ### Claim C6 -/

theorem dictGroupKey_none (mapperKeys : List String) (rowLabel : ℤ) :
    dictGroupKey mapperKeys rowLabel = none := by
  unfold dictGroupKey
  rw [List.find?_eq_none]
  intro k _
  simp

/-- **C6** (code bug): for every valid input (equal-length coordinate
columns), `grid_flat_data` returns an empty grouped frame: the dict passed
as `by=` is aligned against the frame's integer row index, whose labels
match none of the dict's string keys, so every row's group key is null and
is dropped by `groupby`.  No per-group mean is ever produced (and the
`isinstance` conversion branches are dead, so the pandas frame itself — not
an xarray structure — is returned and `sparse` is ignored). -/
theorem gridFlatData_always_empty
    (dataCols : List SeriesQ) (coordCols : List (String × List ℚ))
    (hlen : (coordCols.map (fun kv => kv.2.length)).dedup.length = 1) :
    gridFlatData dataCols coordCols = .ok [] := by
  unfold gridFlatData
  rw [if_neg (by simp [hlen])]
  simp [dictGroupKey_none]

/-- Witness for C6: two rows sharing the coordinate `lat = 0` with data
column `x = [1, 2]` — the claimed grouping would produce the mean `3/2`, the
code produces no group at all. -/
theorem gridFlatData_always_empty_w :
    gridFlatData [⟨"x", [1, 2]⟩] [("lat", [0, 0])] = .ok [] :=
  gridFlatData_always_empty [⟨"x", [1, 2]⟩] [("lat", [0, 0])] (by simp)

/-! ### Claims C7 and C10 -/

theorem mem_insertSorted (x a : ℤ) (l : List ℤ) :
    a ∈ insertSorted x l ↔ a = x ∨ a ∈ l := by
  induction l with
  | nil => simp [insertSorted]
  | cons y ys ih =>
    unfold insertSorted
    by_cases h : x ≤ y
    · rw [if_pos h]
      simp [List.mem_cons]
    · rw [if_neg h]
      simp [List.mem_cons, ih]
      tauto

theorem mem_sortInts (a : ℤ) (l : List ℤ) : a ∈ sortInts l ↔ a ∈ l := by
  unfold sortInts
  induction l with
  | nil => simp
  | cons y ys ih =>
    rw [List.foldr_cons, mem_insertSorted, ih]
    simp [List.mem_cons]

theorem mem_dedupSorted (a : ℤ) (l : List ℤ) : a ∈ dedupSorted l ↔ a ∈ l := by
  induction l with
  | nil => simp [dedupSorted]
  | cons x xs ih =>
    cases xs with
    | nil => simp [dedupSorted]
    | cons y ys =>
      unfold dedupSorted
      by_cases h : x = y
      · rw [if_pos h]
        rw [ih]
        subst h
        simp [List.mem_cons]
      · rw [if_neg h]
        simp [List.mem_cons, ih]

theorem mem_uniqueYears (a : ℤ) (l : List ℤ) : a ∈ uniqueYears l ↔ a ∈ l := by
  unfold uniqueYears
  rw [mem_dedupSorted, mem_sortInts]

/-- **C10** (confirmed): any time axis whose per-year sample counts differ
between two calendar years makes both seasonal-cycle fitters raise the
`ValueError` of `_get_number_of_time_steps_in_year`; in particular a
genuinely monthly series with an incomplete first or last year is rejected
(see the witness). -/
theorem seas_uneven_years_fail (years : List ℤ) (nYears : ℕ)
    (h : ∃ y1 ∈ years, ∃ y2 ∈ years, years.count y1 ≠ years.count y2) :
    gravenChecks years nYears = .error .unevenTimeSteps ∧
    climatologyChecks years nYears = .error .unevenTimeSteps := by
  obtain ⟨y1, hy1, y2, hy2, hne⟩ := h
  have hcounts : ¬ ((yearCounts years).all
      (fun c => c = (yearCounts years).headD 0) = true) := by
    intro hall
    rw [List.all_eq_true] at hall
    have h1 : years.count y1 = (yearCounts years).headD 0 := by
      have hm : years.count y1 ∈ yearCounts years := by
        unfold yearCounts
        exact List.mem_map_of_mem _ ((mem_uniqueYears y1 years).mpr hy1)
      simpa using hall _ hm
    have h2 : years.count y2 = (yearCounts years).headD 0 := by
      have hm : years.count y2 ∈ yearCounts years := by
        unfold yearCounts
        exact List.mem_map_of_mem _ ((mem_uniqueYears y2 years).mpr hy2)
      simpa using hall _ hm
    exact hne (h1.trans h2.symm)
  have hts : timeStepsInYear years = .error .unevenTimeSteps := by
    unfold timeStepsInYear
    rw [if_neg hcounts]
  unfold gravenChecks climatologyChecks
  rw [hts]
  exact ⟨rfl, rfl⟩

/-- Witness for C10: a monthly series covering January 2000 through June
2001 (incomplete last year: counts 12 and 6) is rejected by both fitters. -/
theorem seas_uneven_years_fail_w :
    gravenChecks (List.replicate 12 2000 ++ List.replicate 6 2001) 3
        = .error .unevenTimeSteps ∧
    climatologyChecks (List.replicate 12 2000 ++ List.replicate 6 2001) 3
        = .error .unevenTimeSteps :=
  seas_uneven_years_fail _ 3 ⟨2000, by decide, 2001, by decide, by decide⟩

/-- **C7** (amended): both fitters fail when the (evenly counted) number of
samples per year differs from 12, and propagate the uneven-years
`ValueError`; but only `seascycl_fit_graven` rejects an even window length —
`seascycl_fit_climatology` performs no parity check and proceeds. -/
theorem seas_checks_monthly_and_parity (years : List ℤ) (nYears : ℕ) :
    (∀ s, timeStepsInYear years = .ok s → s ≠ 12 →
      gravenChecks years nYears = .error .notMonthly ∧
      climatologyChecks years nYears = .error .notMonthly) ∧
    (timeStepsInYear years = .ok 12 → nYears % 2 = 0 →
      gravenChecks years nYears = .error .evenWindow) ∧
    (timeStepsInYear years = .ok 12 → nYears % 2 ≠ 0 →
      gravenChecks years nYears = .ok (nYears * 12)) ∧
    (timeStepsInYear years = .ok 12 →
      climatologyChecks years nYears = .ok (nYears * 12)) ∧
    (∀ e, timeStepsInYear years = .error e →
      gravenChecks years nYears = .error e ∧
      climatologyChecks years nYears = .error e) := by
  refine ⟨?_, ?_, ?_, ?_, ?_⟩
  · intro s h hs
    unfold gravenChecks climatologyChecks
    rw [h]
    constructor <;> simp [hs]
  · intro h hp
    unfold gravenChecks
    rw [h]
    simp [hp]
  · intro h hp
    unfold gravenChecks
    rw [h]
    simp [hp]
  · intro h
    unfold climatologyChecks
    rw [h]
    simp
  · intro e h
    unfold gravenChecks climatologyChecks
    rw [h]
    exact ⟨rfl, rfl⟩

/-- **C7 counterexample**: on a perfectly monthly two-year series with the
even window length `n_years = 2`, `seascycl_fit_climatology`'s validation
succeeds (window 24) while `seascycl_fit_graven` rejects — refuting the
claim that both fitters fail on an even window length. -/
theorem climatology_even_window_not_rejected :
    climatologyChecks (List.replicate 12 2000 ++ List.replicate 12 2001) 2
        = .ok (2 * 12) ∧
    gravenChecks (List.replicate 12 2000 ++ List.replicate 12 2001) 2
        = .error .evenWindow := by
  constructor <;> rfl

/-- Witness for C7: the amended statement instantiated on a monthly
two-year series with `n_years = 4`. -/
theorem seas_checks_monthly_and_parity_w :
    (gravenChecks (List.replicate 12 2000 ++ List.replicate 12 2001) 4
        = .error .evenWindow) ∧
    (climatologyChecks (List.replicate 12 2000 ++ List.replicate 12 2001) 4
        = .ok (4 * 12)) :=
  ⟨(seas_checks_monthly_and_parity _ 4).2.1 (by rfl) (by rfl),
   (seas_checks_monthly_and_parity _ 4).2.2.2.1 (by rfl)⟩

end AllMyCode

namespace AllMyCode

/-! ### Claim C2 -/

theorem pdCut_some (bs : List ℚ) (x : ℚ) : pdCut (some bs) (some x) = cutIdx bs x :=
  rfl

theorem range'_map_affine (c0 d : ℚ) (a m : ℕ) :
    (List.range' a m).map (fun (i : ℕ) => c0 + d * (i : ℚ))
      = arithAxis m (c0 + d * a) d := by
  rw [List.range'_eq_map_range, List.map_map]
  unfold arithAxis
  apply List.map_congr_left
  intro i _
  simp [Function.comp]
  ring

/-- **C2** (amended): on a target whose axis centers are evenly spaced with
positive spacing, any query made up of the target's own centers and spanning
at least two distinct centers colocates to exactly the target's values at
those centers (round-trip identity), provided the target fits under the cell
ceiling.  (With uneven spacing, or a query touching a single center, the
identity fails; see the counterexample.) -/
theorem colocate_roundtrip_even_grid
    (da : Target) (qname : String) (qs : List (Option ℚ)) (n : ℕ) (c0 d : ℚ)
    (hd : 0 < d) (hcent : da.centers = arithAxis n c0 d)
    (hval : da.values.length = n)
    (hax : qname = da.axis) (hceil : n ≤ sizeCeiling)
    (hq : ∀ q ∈ qs, ∃ k, k < n ∧ q = some (c0 + d * k))
    (hdist : ∃ q1 ∈ qs, ∃ q2 ∈ qs, q1 ≠ q2) :
    ∃ out, colocate1 da qname qs = .ok out ∧ out.length = qs.length ∧
      ∀ i k, i < qs.length → k < n → qs.getD i none = some (c0 + d * k) →
        out.getD i none = some (da.values.getD k 0) := by
  have hch : colocateChecks [da.axis] [(qname, qs)] = none := by
    rw [colocateChecks_single]
    simp [notMatchedKeys, hax]
  obtain ⟨q1, hq1, q2, hq2, hq12⟩ := hdist
  obtain ⟨k1, hk1n, rfl⟩ := hq q1 hq1
  obtain ⟨k2, hk2n, rfl⟩ := hq q2 hq2
  have hk12 : k1 ≠ k2 := by
    intro hcontra
    exact hq12 (by rw [hcontra])
  have hfm_ne : qs.filterMap id ≠ [] := by
    intro hcontra
    have hmem : (c0 + d * (k1 : ℚ)) ∈ qs.filterMap id := by
      rw [List.mem_filterMap]
      exact ⟨some (c0 + d * (k1 : ℚ)), hq1, rfl⟩
    rw [hcontra] at hmem
    exact absurd hmem (List.not_mem_nil _)
  obtain ⟨lo, hlo⟩ := nanmin_isSome qs hfm_ne
  obtain ⟨hi, hhi⟩ := nanmax_isSome qs hfm_ne
  obtain ⟨hlomem, hlole⟩ := nanmin_spec qs lo hlo
  obtain ⟨hhimem, hhile⟩ := nanmax_spec qs hi hhi
  have hmem_center : ∀ v ∈ qs.filterMap id, ∃ k, k < n ∧ v = c0 + d * (k : ℚ) := by
    intro v hv
    rw [List.mem_filterMap] at hv
    obtain ⟨q, hqmem, hqv⟩ := hv
    obtain ⟨k, hkn, rfl⟩ := hq q hqmem
    exact ⟨k, hkn, by simpa using hqv.symm⟩
  obtain ⟨a, han, hla⟩ := hmem_center lo hlomem
  obtain ⟨b, hbn, hlb⟩ := hmem_center hi hhimem
  have hcast : ∀ j k : ℕ, c0 + d * (j : ℚ) ≤ c0 + d * (k : ℚ) ↔ j ≤ k := by
    intro j k
    rw [add_le_add_iff_left, mul_le_mul_left hd, Nat.cast_le]
  have hmemfm : ∀ k : ℕ, some (c0 + d * (k : ℚ)) ∈ qs →
      (c0 + d * (k : ℚ)) ∈ qs.filterMap id := by
    intro k hk
    rw [List.mem_filterMap]
    exact ⟨_, hk, rfl⟩
  have hab_le : ∀ k : ℕ, some (c0 + d * (k : ℚ)) ∈ qs → a ≤ k ∧ k ≤ b := by
    intro k hk
    constructor
    · have h1 := hlole _ (hmemfm k hk)
      rw [hla] at h1
      exact (hcast a k).mp h1
    · have h1 := hhile _ (hmemfm k hk)
      rw [hlb] at h1
      exact (hcast k b).mp h1
  have hak1 := hab_le k1 hq1
  have hak2 := hab_le k2 hq2
  have hab : a < b := by omega
  have hm2 : 2 ≤ b + 1 - a := by omega
  rw [hla] at hlo
  rw [hlb] at hhi
  have hres : restrictTarget da qs
      = (List.range' a (b + 1 - a)).map
          (fun (i : ℕ) => (c0 + d * (i : ℚ), da.values.getD i 0)) := by
    unfold restrictTarget
    rw [hlo, hhi]
    dsimp only
    rw [hcent]
    unfold arithAxis
    rw [zip_map_range n (fun (i : ℕ) => c0 + d * (i : ℚ)) da.values hval]
    rw [List.filter_map]
    have hstep : (List.range n).filter
        ((fun cv => decide (c0 + d * (a : ℚ) ≤ cv.1 ∧ cv.1 ≤ c0 + d * (b : ℚ)))
          ∘ (fun (i : ℕ) => (c0 + d * (i : ℚ), da.values.getD i 0)))
          = (List.range n).filter (fun i => decide (a ≤ i ∧ i ≤ b)) := by
      apply List.filter_congr
      intro i _
      simp only [Function.comp]
      rw [decide_eq_decide]
      exact and_congr (hcast a i) (hcast i b)
    rw [hstep, filter_range_interval a b n (by omega) hbn]
  have hreslen : (restrictTarget da qs).length = b + 1 - a := by
    rw [hres]
    simp
  have hxc : (restrictTarget da qs).map Prod.fst
      = arithAxis (b + 1 - a) (c0 + d * a) d := by
    rw [hres, List.map_map]
    rw [show (Prod.fst ∘ fun (i : ℕ) => (c0 + d * (i : ℚ), da.values.getD i 0))
        = (fun (i : ℕ) => c0 + d * (i : ℚ)) from rfl]
    exact range'_map_affine c0 d a (b + 1 - a)
  have hbins : makeBins ((restrictTarget da qs).map Prod.fst)
      = some (linspace ((c0 + d * a) - d / 2)
          (((c0 + d * a) + d * ((b + 1 - a - 1 : ℕ) : ℚ)) + d / 2)
          ((b + 1 - a) + 1)) := by
    rw [hxc]
    exact makeBins_arithAxis (b + 1 - a) (c0 + d * a) d hm2
  have hxv : (restrictTarget da qs).map Prod.snd
      = (List.range' a (b + 1 - a)).map (fun (i : ℕ) => da.values.getD i 0) := by
    rw [hres, List.map_map]
    rfl
  rw [colocate1_eq_of_checks da qname qs hch]
  rw [if_neg (by rw [hreslen]; omega), if_neg (by rw [hreslen]; omega)]
  refine ⟨_, rfl, by simp, ?_⟩
  intro i k hi hkn hqik
  have hgetD : qs.getD i none = qs[i] := by
    rw [List.getD_eq_getElem?_getD, List.getElem?_eq_getElem hi]
    rfl
  have hmemq : some (c0 + d * (k : ℚ)) ∈ qs := by
    rw [← hqik, hgetD]
    exact List.getElem_mem hi
  obtain ⟨hak, hkb⟩ := hab_le k hmemq
  have htm : k - a < b + 1 - a := by omega
  rw [getD_map_list _ none none qs i hi, hqik, hbins, pdCut_some]
  have hcut : cutIdx (linspace ((c0 + d * a) - d / 2)
      (((c0 + d * a) + d * ((b + 1 - a - 1 : ℕ) : ℚ)) + d / 2)
      ((b + 1 - a) + 1)) (c0 + d * (k : ℚ)) = some (k - a) := by
    unfold cutIdx
    rw [linspace_length]
    have hlenm : ((b + 1 - a) + 1) - 1 = b + 1 - a := by omega
    rw [hlenm]
    apply find?_range_interval _ (b + 1 - a) (k - a) htm
    · intro j hj
      rw [evenBins_getD (b + 1 - a) j (c0 + d * a) d hm2 (by omega),
        evenBins_getD (b + 1 - a) (j + 1) (c0 + d * a) d hm2 (by omega)]
      simp only [decide_eq_false_iff_not]
      rintro ⟨h1', h2'⟩
      have hj1 : (j : ℚ) + (a : ℚ) + 1 ≤ (k : ℚ) := by
        exact_mod_cast (by omega : j + a + 1 ≤ k)
      have hcastj : ((j + 1 : ℕ) : ℚ) = (j : ℚ) + 1 := by push_cast; ring
      rw [hcastj] at h2'
      nlinarith [hd]
    · rw [evenBins_getD (b + 1 - a) (k - a) (c0 + d * a) d hm2 (by omega),
        evenBins_getD (b + 1 - a) ((k - a) + 1) (c0 + d * a) d hm2 (by omega)]
      simp only [decide_eq_true_eq]
      have htc : ((k - a : ℕ) : ℚ) = (k : ℚ) - (a : ℚ) := Nat.cast_sub hak
      have htc1 : ((k - a + 1 : ℕ) : ℚ) = (k : ℚ) - (a : ℚ) + 1 := by
        rw [Nat.cast_add, htc]
        norm_num
      rw [htc, htc1]
      constructor
      · linarith
      · linarith
  rw [hcut]
  rw [Option.map_some']
  rw [hxv, getD_map_range' (fun (i : ℕ) => da.values.getD i 0) 0 a (b + 1 - a)
    (k - a) htm]
  have hka : a + (k - a) = k := by omega
  rw [hka]

end AllMyCode

namespace AllMyCode

/-- **C2 counterexample**: on the unevenly spaced target `lat = [0, 1, 10]`
with values `[10, 20, 30]`, colocating at the grid's own centers
`[0, 1, 10]` returns `[10, 10, 30]` — the middle center falls into the first
mean-spacing bin — refuting the unrestricted round-trip identity. -/
theorem colocate_roundtrip_uneven_fails :
    colocate1 ⟨"t", "lat", [0, 1, 10], [10, 20, 30]⟩ "lat"
        [some (0 : ℚ), some 1, some 10]
      = .ok [some 10, some 10, some 30] ∧
    colocate1 ⟨"t", "lat", [0, 1, 10], [10, 20, 30]⟩ "lat"
        [some (0 : ℚ), some 1, some 10]
      ≠ .ok [some 10, some 20, some 30] := by
  have heval : colocate1 ⟨"t", "lat", [0, 1, 10], [10, 20, 30]⟩ "lat"
      [some (0 : ℚ), some 1, some 10] = .ok [some 10, some 10, some 30] := by
    simp [colocate1, colocateChecks, coordLengthSet, notMatchedKeys, restrictTarget,
      nanmin, nanmax, makeBins, mean, diffs, linspace, cutIdx, pdCut, sizeCeiling,
      List.range_succ]
    norm_num
  refine ⟨heval, ?_⟩
  rw [heval]
  intro hcontra
  simp only [Except.ok.injEq, List.cons.injEq, Option.some.injEq] at hcontra
  norm_num at hcontra

/-- Witness for C2: the spec's concrete scenario — target `lat = [-1, 0, 1]`
(unit spacing), values `[10, 20, 30]`, query `[-1, 1]` — satisfies the
amended round-trip theorem, giving outputs `10` and `30` at the queried
centers. -/
theorem colocate_roundtrip_even_grid_w :
    ∃ out, colocate1 ⟨"t", "lat", [-1, 0, 1], [10, 20, 30]⟩ "lat"
        [some (-1 : ℚ), some 1] = .ok out ∧
      out.length = [some (-1 : ℚ), some 1].length ∧
      ∀ (i k : ℕ), i < [some (-1 : ℚ), some 1].length → k < 3 →
        [some (-1 : ℚ), some 1].getD i none = some ((-1 : ℚ) + 1 * (k : ℚ)) →
        out.getD i none
          = some ((⟨"t", "lat", [-1, 0, 1], [10, 20, 30]⟩ : Target).values.getD k 0) := by
  apply colocate_roundtrip_even_grid ⟨"t", "lat", [-1, 0, 1], [10, 20, 30]⟩ "lat"
    [some (-1 : ℚ), some 1] 3 (-1) 1 (by norm_num) ?_ (by simp) rfl
    (by norm_num [sizeCeiling]) ?_ ?_
  · show ([-1, 0, 1] : List ℚ) = arithAxis 3 (-1) 1
    simp [arithAxis, List.range_succ]
    norm_num
  · intro q hq
    simp only [List.mem_cons, List.not_mem_nil, or_false] at hq
    rcases hq with rfl | rfl
    · exact ⟨0, by norm_num, by norm_num⟩
    · exact ⟨2, by norm_num, by norm_num⟩
  · exact ⟨some (-1), by simp, some 1, by simp, by norm_num⟩

end AllMyCode

namespace AllMyCode

/-! ### Claim C8 -/

theorem pySplit_ne_nil (c : Char) (s : List Char) : pySplit c s ≠ [] := by
  cases s with
  | nil => simp [pySplit]
  | cons x xs =>
    unfold pySplit
    cases h : pySplit c xs with
    | nil => simp
    | cons a rest => by_cases hx : x = c <;> simp [hx]

theorem pySplit_no_sep (c : Char) : ∀ s : List Char, c ∉ s → pySplit c s = [s] := by
  intro s
  induction s with
  | nil => intro _; rfl
  | cons x xs ih =>
    intro h
    have hx : x ≠ c := by
      intro he
      exact h (he ▸ List.mem_cons_self x xs)
    have hxs : c ∉ xs := fun hc => h (List.mem_cons_of_mem x hc)
    unfold pySplit
    rw [ih hxs]
    simp [hx]

theorem pySplit_cons_ne (c x : Char) (r : List Char) (hx : x ≠ c) :
    ∃ s rest, pySplit c r = s :: rest ∧ pySplit c (x :: r) = (x :: s) :: rest := by
  cases h : pySplit c r with
  | nil => exact absurd h (pySplit_ne_nil c r)
  | cons s rest =>
    refine ⟨s, rest, rfl, ?_⟩
    unfold pySplit
    rw [h]
    simp [hx]

theorem pySplit_append_sep (c : Char) : ∀ (s r : List Char), c ∉ s →
    pySplit c (s ++ c :: r) = s :: pySplit c r := by
  intro s
  induction s with
  | nil =>
    intro r _
    show pySplit c (c :: r) = [] :: pySplit c r
    conv_lhs => unfold pySplit
    cases h : pySplit c r with
    | nil => exact absurd h (pySplit_ne_nil c r)
    | cons a rest => simp
  | cons x xs ih =>
    intro r h
    have hx : x ≠ c := by
      intro he
      exact h (he ▸ List.mem_cons_self x xs)
    have hxs : c ∉ xs := fun hc => h (List.mem_cons_of_mem x hc)
    show pySplit c (x :: (xs ++ c :: r)) = (x :: xs) :: pySplit c r
    obtain ⟨s', rest', heq, heq2⟩ := pySplit_cons_ne c x (xs ++ c :: r) hx
    have hih := ih r hxs
    rw [hih] at heq
    injection heq with h1 h2
    rw [heq2, h1, h2]

theorem pyStrip_space (s : List Char) : pyStrip (' ' :: s) = pyStrip s := by
  unfold pyStrip
  rw [List.dropWhile_cons]
  simp [show (' '.isWhitespace) = true from rfl]

theorem strip_pySplit_space (r : List Char) :
    (pySplit ';' (' ' :: r)).map pyStrip = (pySplit ';' r).map pyStrip := by
  obtain ⟨s, rest, heq, heq2⟩ := pySplit_cons_ne ';' ' ' r (by decide)
  rw [heq, heq2]
  simp [pyStrip_space]

theorem pyJoin_ne_nil (sep : List Char) (s : List Char) (rest : List (List Char))
    (hs : s ≠ []) : pyJoin sep (s :: rest) ≠ [] := by
  cases rest with
  | nil => simpa [pyJoin] using hs
  | cons t r => simp [pyJoin, hs]

theorem getAttr_assignAttr (attrs : List (String × List Char)) (k : String)
    (v : List Char) : getAttr (assignAttr attrs k v) k = v := by
  unfold getAttr assignAttr
  rw [List.find?_cons_of_pos]
  · rfl
  · simp

theorem split_join_strip :
    ∀ ns : List (List Char), ns ≠ [] →
      (∀ s ∈ ns, s ≠ [] ∧ ';' ∉ s ∧ pyStrip s = s) →
      (pySplit ';' (pyJoin "; ".toList ns)).map pyStrip = ns := by
  intro ns
  induction ns with
  | nil => intro h _; exact absurd rfl h
  | cons s rest ih =>
    intro _ hclean
    have hs := hclean s (List.mem_cons_self s rest)
    cases rest with
    | nil =>
      show (pySplit ';' s).map pyStrip = [s]
      rw [pySplit_no_sep ';' s hs.2.1]
      simp [hs.2.2]
    | cons t rest' =>
      have hrest : ∀ x ∈ t :: rest', x ≠ [] ∧ ';' ∉ x ∧ pyStrip x = x := by
        intro x hx
        exact hclean x (List.mem_cons_of_mem s hx)
      show (pySplit ';' (s ++ "; ".toList ++ pyJoin "; ".toList (t :: rest'))).map
          pyStrip = s :: t :: rest'
      have hassoc : s ++ "; ".toList ++ pyJoin "; ".toList (t :: rest')
          = s ++ ';' :: ' ' :: pyJoin "; ".toList (t :: rest') := by
        rw [List.append_assoc]
        rfl
      rw [hassoc]
      rw [pySplit_append_sep ';' s (' ' :: pyJoin "; ".toList (t :: rest')) hs.2.1]
      rw [List.map_cons, hs.2.2]
      rw [strip_pySplit_space (pyJoin "; ".toList (t :: rest'))]
      rw [ih (by simp) hrest]

/-- **C8** (confirmed): every conform transform's `_add_history`, given a
history attribute currently holding the `"; "`-join of any list of clean
notes (nonempty, semicolon-free, already stripped — which an absent or empty
history realizes as the empty list), stores on the output exactly the join
of those notes with the new timestamped provenance note appended; in
particular an absent or empty history ends up holding exactly the new
note. -/
theorem conform_history_append
    (attrs : List (String × List Char)) (ns : List (List Char))
    (version now doc : List Char)
    (hns : ∀ s ∈ ns, s ≠ [] ∧ ';' ∉ s ∧ pyStrip s = s)
    (hh : getAttr attrs "history" = pyJoin "; ".toList ns) :
    getAttr (dsAddHistory attrs (provNote version now doc)) "history"
      = pyJoin "; ".toList (ns ++ [provNote version now doc]) := by
  unfold dsAddHistory
  rw [getAttr_assignAttr, hh]
  unfold addHistory
  cases ns with
  | nil => rfl
  | cons s rest =>
    have hs := hns s (List.mem_cons_self s rest)
    rw [if_neg (pyJoin_ne_nil "; ".toList s rest hs.1)]
    rw [split_join_strip (s :: rest) (by simp) hns]

/-- Witness for C8: appending a timestamped note to a history holding one
existing note. -/
theorem conform_history_append_w :
    getAttr (dsAddHistory [("history", "first note".toList)]
        (provNote "".toList "220101".toList
          "Regrid the data to [-180 : 180] from [0 : 360]".toList)) "history"
      = pyJoin "; ".toList (["first note".toList] ++
          [provNote "".toList "220101".toList
            "Regrid the data to [-180 : 180] from [0 : 360]".toList]) := by
  apply conform_history_append
  · intro s hs
    rw [List.mem_singleton] at hs
    subst hs
    exact ⟨by decide, by decide, by decide⟩
  · rfl

end AllMyCode
